import Mathlib

/-!
Verification of the madison CLI agent core against its specification.

The Python source is shallowly embedded: pure fragments become Lean
functions, effectful collaborators (HTTP transport, file system, the JSON
codec of the standard library, the interactive prompt) become explicit
function parameters or state passing.  Python dictionaries whose values
are JSON payloads are modelled by the `Json` inductive below; `dict.get`
becomes an association-list lookup.  Paths are modelled as canonical
component lists (`resolve` is the identity: no symlinks or `..` segments).
-/

namespace Madison

/-- JSON-like values, modelling Python dict/list/str/int/bool/None payloads
as they appear in API messages and tool-call dictionaries. -/
inductive Json where
  | null
  | bool (b : Bool)
  | num (n : Int)
  | str (s : String)
  | arr (elts : List Json)
  | obj (fields : List (String × Json))
deriving Inhabited

/-- Association-list lookup on object fields, first match wins (Python dict
keys are unique, so this agrees with `dict.__getitem__`). -/
def fieldLookup : List (String × Json) → String → Option Json
  | [], _ => none
  | (k, v) :: rest, key => if k = key then some v else fieldLookup rest key

/-- Python `d.get(k)`: `none` models an absent key.  All call sites in the
source apply it to dictionaries; on non-object values (where Python would
raise) we return `none`, and every theorem below only exercises object
inputs. -/
def jget (j : Json) (k : String) : Option Json :=
  match j with
  | .obj fields => fieldLookup fields k
  | _ => none

/-- Python `d.get(k, default)`. -/
def jgetD (j : Json) (k : String) (d : Json) : Json :=
  (jget j k).getD d

/-- Python `d[k] = v` on an association list: replace the first binding of
`k`, or append a fresh one. -/
def setKey : List (String × Json) → String → Json → List (String × Json)
  | [], k, v => [(k, v)]
  | (k', v') :: rest, k, v =>
    if k' = k then (k, v) :: rest else (k', v') :: setKey rest k v

/-! Python string operations (`str.strip`, `str.startswith`, slicing,
`str.split`, `str.join`), implemented over the underlying character list
by structural recursion so that concrete evaluations reduce in the
kernel. -/

/-- Prefix test on character lists: `isHeadOf pre l` holds when `l`
starts with `pre`. -/
def isHeadOf : List Char → List Char → Bool
  | [], _ => true
  | _ :: _, [] => false
  | a :: as, b :: bs => if a = b then isHeadOf as bs else false

/-- Python `s.startswith(pre)`. -/
def strStartsWith (s pre : String) : Bool :=
  isHeadOf pre.data s.data

/-- Python `not s.strip()`: the string consists only of whitespace. -/
def isBlankLine (s : String) : Bool :=
  s.data.all (fun c => c = ' ' || c = '\t' || c = '\n' || c = '\r')

/-- Python `s[n:]` on a string. -/
def strDrop (s : String) (n : Nat) : String :=
  String.mk (s.data.drop n)

/-- Split a character list on a separator character; always returns at
least one (possibly empty) group, like Python `str.split(sep)`. -/
def splitOnChar (sep : Char) : List Char → List (List Char)
  | [] => [[]]
  | c :: cs =>
    match splitOnChar sep cs with
    | [] => [[c]]
    | g :: gs => if c = sep then [] :: g :: gs else (c :: g) :: gs

/-- Python `s.split("/")`. -/
def splitSlash (s : String) : List String :=
  (splitOnChar '/' s.data).map String.mk

/-- Python `"/".join(parts)` (how `str(Path(...))` renders components). -/
def joinSlash : List String → String
  | [] => ""
  | [s] => s
  | s :: rest => s ++ "/" ++ joinSlash rest

/-- Tool call emitted by the model (`madison.api.models.ToolCall`).  The
`function` payload is kept as a raw JSON object exactly as pydantic stores
the `Dict[str, Any]` field. -/
structure ToolCall where
  id : String
  type : String
  function : Json

/-- The `ToolCall.name` property: `function.get("name", "")`. -/
def ToolCall.name (tc : ToolCall) : Json :=
  jgetD tc.function "name" (.str "")

/-- The `ToolCall.arguments` property: `function.get("arguments", "{}")`,
decoded with `json.loads` when it is a string.  The standard-library JSON
decoder is abstracted as the `jsonLoads` parameter (`Except.error` models a
raised `JSONDecodeError`). -/
def ToolCall.arguments (jsonLoads : String → Except String Json) (tc : ToolCall) :
    Except String Json :=
  match jgetD tc.function "arguments" (.str "\x7b\x7d") with
  | .str s => jsonLoads s
  | v => .ok v

/-- Serialization `tc.dict()` used when appending the assistant message in
the tool loop. -/
def ToolCall.toDict (tc : ToolCall) : Json :=
  .obj [("id", .str tc.id), ("type", .str tc.type), ("function", tc.function)]

/-- Message content: Python `Optional[Union[str, List[Dict[str, Any]]]]`. -/
inductive PyContent where
  | none
  | str (s : String)
  | blocks (bs : List Json)

/-- Chat message (`madison.api.models.Message`). -/
structure Message where
  role : String
  content : PyContent
  tool_calls : Option (List Json)
  tool_call_id : Option String

/-- One entry of the `tool_results` list built by `call_with_tool_loop`
(a dict with constant `"type": "tool_result"`). -/
structure ToolResultEntry where
  type : String
  tool_use_id : String
  content : String
deriving Repr, DecidableEq

/-- JSON form of a tool-result entry, as passed to `json.dumps`. -/
def ToolResultEntry.toDict (r : ToolResultEntry) : Json :=
  .obj [("type", .str r.type), ("tool_use_id", .str r.tool_use_id),
        ("content", .str r.content)]

/-- Body of the per-tool-call `try` block in `call_with_tool_loop`
(`client.py` lines 469-484): evaluate `tool_call.arguments` (which may
raise on malformed JSON), run the executor (`tool_executor` returns a
value, already rendered through `str(...)` here, or raises), and capture
any exception as an `"Error: <message>"` result with the originating
call's id. -/
def execOne (jsonLoads : String → Except String Json)
    (tool_executor : Json → Json → Except String String) (tc : ToolCall) :
    ToolResultEntry :=
  match tc.arguments jsonLoads with
  | .error e => { type := "tool_result", tool_use_id := tc.id, content := "Error: " ++ e }
  | .ok args =>
    match tool_executor tc.name args with
    | .ok result => { type := "tool_result", tool_use_id := tc.id, content := result }
    | .error e => { type := "tool_result", tool_use_id := tc.id, content := "Error: " ++ e }

/-- The `tool_results` list collected for one round: one entry per tool
call, in order. -/
def roundToolResults (jsonLoads : String → Except String Json)
    (tool_executor : Json → Json → Except String String) (tcs : List ToolCall) :
    List ToolResultEntry :=
  tcs.map (execOne jsonLoads tool_executor)

/-- Loop body of `OpenRouterClient.call_with_tool_loop` (`client.py` lines
443-494).  The model call `call_with_tools` is abstracted as `respond`
(its result is the `(response_text, tool_calls)` pair), `json.dumps` as
`jsonDumps`.  `fuel` counts the remaining iterations of
`for iteration in range(max_iterations)`, `rounds` the model-call rounds
already performed; the second component of the result is the total number
of model-call rounds. -/
def toolLoopGo (respond : List Message → String × Option (List ToolCall))
    (jsonLoads : String → Except String Json) (jsonDumps : Json → String)
    (tool_executor : Json → Json → Except String String) :
    List Message → Nat → Nat → String × Nat
  | _, 0, rounds => ("Max iterations reached", rounds)
  | msgs, fuel + 1, rounds =>
    let resp := respond msgs
    let response_text := resp.1
    let tool_calls := resp.2
    let assistant_message : Message :=
      { role := "assistant",
        content := if response_text = "" then .none else .str response_text,
        tool_calls :=
          match tool_calls with
          | some [] => none
          | some tcs => some (tcs.map ToolCall.toDict)
          | none => none,
        tool_call_id := none }
    let msgs := msgs ++ [assistant_message]
    match tool_calls with
    | none => (response_text, rounds + 1)
    | some [] => (response_text, rounds + 1)
    | some (tc :: rest) =>
      let tool_results := roundToolResults jsonLoads tool_executor (tc :: rest)
      let tool_result_message : Message :=
        { role := "user",
          content := .str (jsonDumps (.arr (tool_results.map ToolResultEntry.toDict))),
          tool_calls := none, tool_call_id := none }
      toolLoopGo respond jsonLoads jsonDumps tool_executor
        (msgs ++ [tool_result_message]) fuel (rounds + 1)

/-- `OpenRouterClient.call_with_tool_loop`: seed the conversation with the
initial user message and run up to `max_iterations` rounds. -/
def call_with_tool_loop (respond : List Message → String × Option (List ToolCall))
    (jsonLoads : String → Except String Json) (jsonDumps : Json → String)
    (tool_executor : Json → Json → Except String String)
    (initial_message : String) (max_iterations : Nat) : String × Nat :=
  toolLoopGo respond jsonLoads jsonDumps tool_executor
    [{ role := "user", content := .str initial_message,
       tool_calls := none, tool_call_id := none }]
    max_iterations 0

/-- Default of the `max_iterations` parameter in the source. -/
def defaultMaxIterations : Nat := 10

/-- Fragment extraction from one decoded streaming chunk (`client.py` lines
237-240): `if "choices" in chunk and chunk["choices"]: choice :=
chunk["choices"][0]; if "delta" in choice and "content" in choice["delta"]:
yield choice["delta"]["content"]`.  Decoded chunks are objects whose
`choices` entry is an array, as the wire contract guarantees. -/
def chunkContent (chunk : Json) : Option Json :=
  match jget chunk "choices" with
  | some (.arr (choice :: _)) =>
    match jget choice "delta" with
    | some delta => jget delta "content"
    | none => none
  | _ => none

/-- Line loop of `OpenRouterClient._do_chat_stream` (`client.py` lines
226-243) over the response body's lines.  `decode` abstracts `json.loads`
(`none` models a raised `JSONDecodeError`, which the loop logs and skips).
Blank or comment-prefixed lines are discarded; a `"data: "` line carrying
the literal `"[DONE]"` breaks out of the loop; other data lines yield
their `choices[0].delta.content` fragment when present. -/
def doChatStreamLines (decode : String → Option Json) : List String → List Json
  | [] => []
  | line :: rest =>
    if isBlankLine line || strStartsWith line ":" then doChatStreamLines decode rest
    else if strStartsWith line "data: " then
      let data := strDrop line 6
      if data = "[DONE]" then []
      else
        match decode data with
        | none => doChatStreamLines decode rest
        | some chunk =>
          match chunkContent chunk with
          | some c => c :: doChatStreamLines decode rest
          | none => doChatStreamLines decode rest
    else doChatStreamLines decode rest

/-- Per-line fragment of the stream, ignoring early termination: the
specification-side description of one line's contribution. -/
def lineFragment (decode : String → Option Json) (line : String) : Option Json :=
  if isBlankLine line || strStartsWith line ":" then none
  else if strStartsWith line "data: " then
    match decode (strDrop line 6) with
    | none => none
    | some chunk => chunkContent chunk
  else none

/-- A line on which the stream loop breaks: a non-blank, non-comment data
line whose payload is the literal `"[DONE]"`. -/
def isDoneLine (line : String) : Bool :=
  if isBlankLine line || strStartsWith line ":" then false
  else if strStartsWith line "data: " then decide (strDrop line 6 = "[DONE]")
  else false

/-- Error raised by a failed attempt of the streaming call.  `status` is
the HTTP status code that `chat_stream` recovers by parsing the
`"OpenRouter API error: <code>"` text of the `APIError` (`client.py` lines
288-294); `none` models an unparsable message. -/
structure APIErr where
  status : Option Nat
  msg : String
deriving Repr, DecidableEq

/-- `OpenRouterClient._is_retryable_error`: rate limit, service
unavailable, gateway timeout. -/
def is_retryable_error (status_code : Nat) : Bool :=
  status_code == 429 || status_code == 503 || status_code == 504

/-- Retry loop of `OpenRouterClient.chat_stream` (`client.py` lines
275-309).  `attempt i` abstracts the `i`-th call of `_do_chat_stream`
(the streamed tokens, or the `APIError` it raises); delays are modelled as
exact rationals.  `i` is the current attempt index and `fuel` the number
of retries still permitted (`fuel = max_retries - i`, so `i < max_retries`
iff `fuel` is a successor).  Returns the outcome (tokens yielded, or the
error raised), the list of back-off sleeps performed, in order, and the
number of attempts made. -/
def chatStreamGo (attempt : Nat → Except APIErr (List String))
    (retry_backoff_factor : ℚ) :
    Nat → Nat → ℚ → List ℚ → Except APIErr (List String) × List ℚ × Nat
  | i, 0, _, sleeps =>
    match attempt i with
    | .ok tokens => (.ok tokens, sleeps, i + 1)
    | .error e => (.error e, sleeps, i + 1)
  | i, fuel + 1, delay, sleeps =>
    match attempt i with
    | .ok tokens => (.ok tokens, sleeps, i + 1)
    | .error e =>
      match e.status with
      | some sc =>
        if sc != 0 && is_retryable_error sc then
          chatStreamGo attempt retry_backoff_factor (i + 1) fuel
            (delay * retry_backoff_factor) (sleeps ++ [delay])
        else (.error e, sleeps, i + 1)
      | none => (.error e, sleeps, i + 1)

/-- `OpenRouterClient.chat_stream` with its retry policy. -/
def chat_stream (attempt : Nat → Except APIErr (List String)) (max_retries : Nat)
    (retry_initial_delay retry_backoff_factor : ℚ) :
    Except APIErr (List String) × List ℚ × Nat :=
  chatStreamGo attempt retry_backoff_factor 0 max_retries retry_initial_delay []

/-- Exponentially growing back-off delays: `k` sleeps starting at `d`,
multiplied by `f` after each one. -/
def geomDelays (d f : ℚ) : Nat → List ℚ
  | 0 => []
  | k + 1 => d :: geomDelays (d * f) f k

/-- Python `block.get("type") == "tool_use"` (false whenever the key is
absent or its value is not that string). -/
def isToolUseBlock (b : Json) : Bool :=
  match jget b "type" with
  | some (.str s) => s = "tool_use"
  | _ => false

/-- Python `tool_call.get('function', {}).get('name')` on a raw tool-call
dictionary. -/
def rawCallName (tc : Json) : Json :=
  jgetD (jgetD tc "function" (.obj [])) "name" .null

/-- Python `tool_call.get('function', {}).get('arguments', {})` on a raw
tool-call dictionary. -/
def rawCallArguments (tc : Json) : Json :=
  jgetD (jgetD tc "function" (.obj [])) "arguments" (.obj [])

/-- The `tool_use` content block that `AnthropicToolCaller.serialize_message`
builds from one raw `tool_calls` entry (`tool_caller.py` lines 133-142):
`tool_call.get('id')`, plus name and arguments as above. -/
def toolUseBlockOfCall (tc : Json) : Json :=
  .obj [("type", .str "tool_use"),
        ("id", jgetD tc "id" .null),
        ("name", rawCallName tc),
        ("input", rawCallArguments tc)]

/-- The leading content blocks `serialize_message` keeps when tool calls
are present (`tool_caller.py` lines 117-130): string content becomes one
text block; existing block lists are kept with `tool_use`-shaped blocks
filtered out; absent content contributes nothing. -/
def existingBlocks (c : PyContent) : List Json :=
  match c with
  | .str s => [Json.obj [("type", .str "text"), ("text", .str s)]]
  | .blocks bs => bs.filter (fun b => !isToolUseBlock b)
  | .none => []

/-- The branch of `serialize_message` taken when the message carries no
tool calls: an assistant message with no content gets a single empty text
block; anything else passes through unchanged. -/
def emptyAssistantFixup (m : Message) (msg_dict : List (String × Json)) : Json :=
  match m.content with
  | .none =>
    if m.role = "assistant" then
      .obj (setKey msg_dict "content" (.arr [.obj [("type", .str "text"), ("text", .str "")]]))
    else .obj msg_dict
  | _ => .obj msg_dict

/-- `AnthropicToolCaller.serialize_message` (`tool_caller.py` lines
101-154).  The base dictionary is `message.model_dump` excluding
`tool_calls` and omitting `None` fields; when tool calls are present,
string content becomes a leading text block, existing `tool_use`-shaped
blocks are filtered out of list content, and one `tool_use` block per raw
tool call is appended. -/
def AnthropicToolCaller.serialize_message (m : Message) : Json :=
  let msg_dict : List (String × Json) :=
    [("role", .str m.role)]
    ++ (match m.content with
        | .none => []
        | .str s => [("content", .str s)]
        | .blocks bs => [("content", .arr bs)])
    ++ (match m.tool_call_id with
        | some s => [("tool_call_id", .str s)]
        | none => [])
  match m.tool_calls with
  | some (tc0 :: tcs) =>
    let content := existingBlocks m.content ++ (tc0 :: tcs).map toolUseBlockOfCall
    .obj (setKey msg_dict "content" (.arr content))
  | some [] => emptyAssistantFixup m msg_dict
  | none => emptyAssistantFixup m msg_dict

/-- Coercion of the `block.get("id", "")` payload into the `id : str`
field of `ToolCall`.  Pydantic accepts exactly strings here; the theorems
below only exercise blocks whose ids are strings, so non-string payloads
(where pydantic would raise a validation error) are mapped to `""`. -/
def pyStrOrEmpty : Json → String
  | .str s => s
  | _ => ""

/-- One step of `extract_tool_calls`: a `tool_use` block becomes
`ToolCall(id=block.get("id", ""), type="function",
function={"name": block.get("name", ""), "arguments": block.get("input", {})})`;
any other block is skipped. -/
def extractBlockToolCall (block : Json) : Option ToolCall :=
  if isToolUseBlock block then
    some { id := pyStrOrEmpty (jgetD block "id" (.str "")),
           type := "function",
           function := .obj [("name", jgetD block "name" (.str "")),
                             ("arguments", jgetD block "input" (.obj []))] }
  else none

/-- `AnthropicToolCaller.extract_tool_calls` (`tool_caller.py` lines
73-99): walk the `message.content` array and turn every `tool_use` block
into a `ToolCall`.  Non-array content never occurs on this path (the
serialized shape fed to it is always an array). -/
def AnthropicToolCaller.extract_tool_calls (response_dict : Json) : List ToolCall :=
  let message := jgetD response_dict "message" (.obj [])
  let content := jgetD message "content" (.arr [])
  match content with
  | .arr blocks => blocks.filterMap extractBlockToolCall
  | _ => []

/-- Outcome of `FileOperations.read`: content, a raised
`FileNotFoundError` (caught separately by the executor), or any other
raised exception with its message. -/
inductive ReadResult where
  | ok (content : String)
  | notFound
  | failed (msg : String)

/-- Effectful collaborators of `ToolExecutor` (`CommandExecutor`,
`FileOperations`, `WebSearcher`), abstracted as functions.  `Except.error`
models a raised exception carrying `str(e)`; `runCommand` returns
`(stdout, stderr, returncode)`.  All four tools declare their parameters
as JSON strings in the Tool Registry, so argument dictionaries are
modelled as string-valued association lists. -/
structure ToolEnv where
  runCommand : String → Except String (String × String × Int)
  readFile : String → ReadResult
  writeFile : String → String → Except String Unit
  searchWeb : String → Except String String

/-- Python `arguments.get(key)` on a string-valued argument dict. -/
def argsGet : List (String × String) → String → Option String
  | [], _ => none
  | (k, v) :: rest, key => if k = key then some v else argsGet rest key

/-- `ToolExecutor._execute_command` (`tool_executor.py` lines 49-75).
`arguments.get("command")` is falsy when absent or empty. -/
def executeCommandTool (env : ToolEnv) (arguments : List (String × String)) : String :=
  match argsGet arguments "command" with
  | none => "Error: command parameter is required"
  | some command =>
    if command = "" then "Error: command parameter is required"
    else
      match env.runCommand command with
      | .ok (stdout, stderr, returncode) =>
        if returncode = 0 then
          if stdout = "" then "(command executed successfully)" else stdout
        else
          let error_msg :=
            if stderr = "" then "Command failed with exit code " ++ toString returncode
            else stderr
          "Error: " ++ error_msg
      | .error e => "Error: " ++ ("Failed to execute command: " ++ e)

/-- `ToolExecutor._read_file` (`tool_executor.py` lines 77-100). -/
def readFileTool (env : ToolEnv) (arguments : List (String × String)) : String :=
  match argsGet arguments "file_path" with
  | none => "Error: file_path parameter is required"
  | some file_path =>
    if file_path = "" then "Error: file_path parameter is required"
    else
      match env.readFile file_path with
      | .ok content => content
      | .notFound => "Error: File not found: " ++ file_path
      | .failed e => "Error: " ++ ("Failed to read file: " ++ e)

/-- `ToolExecutor._write_file` (`tool_executor.py` lines 102-125).  Note
that `content` is read with `arguments.get("content", "")`: an absent
`content` defaults to the empty string and the write is still attempted;
only `file_path` is checked. -/
def writeFileTool (env : ToolEnv) (arguments : List (String × String)) : String :=
  let file_path := argsGet arguments "file_path"
  let content := (argsGet arguments "content").getD ""
  match file_path with
  | none => "Error: file_path parameter is required"
  | some fp =>
    if fp = "" then "Error: file_path parameter is required"
    else
      match env.writeFile fp content with
      | .ok _ => "Successfully wrote " ++ toString content.length ++ " bytes to " ++ fp
      | .error e => "Error: " ++ ("Failed to write file: " ++ e)

/-- `ToolExecutor._search_web` (`tool_executor.py` lines 127-148). -/
def searchWebTool (env : ToolEnv) (arguments : List (String × String)) : String :=
  match argsGet arguments "query" with
  | none => "Error: query parameter is required"
  | some query =>
    if query = "" then "Error: query parameter is required"
    else
      match env.searchWeb query with
      | .ok results => results
      | .error e => "Error: " ++ ("Failed to search web: " ++ e)

/-- `ToolExecutor.execute` (`tool_executor.py` lines 24-47): dispatch on
the tool name; an unknown name raises `ValueError`, modelled as
`Except.error`. -/
def ToolExecutor.execute (env : ToolEnv) (tool_name : String)
    (arguments : List (String × String)) : Except String String :=
  if tool_name = "execute_command" then .ok (executeCommandTool env arguments)
  else if tool_name = "read_file" then .ok (readFileTool env arguments)
  else if tool_name = "write_file" then .ok (writeFileTool env arguments)
  else if tool_name = "search_web" then .ok (searchWebTool env arguments)
  else .error ("Unknown tool: " ++ tool_name)

/-- A path string as the permission manager sees it: absolute or relative
to the current working directory, as a list of canonical components
(`Path.resolve` is the identity in this model — no symlinks, no `..`). -/
inductive PyPath where
  | abs (comps : List String)
  | rel (comps : List String)
deriving DecidableEq, Repr

/-- Parse a path string into components, dropping empty and `.` segments
as `resolve` does. -/
def parsePath (s : String) : PyPath :=
  if strStartsWith s "/" then
    .abs ((splitSlash (strDrop s 1)).filter (fun c => c != "" && c != "."))
  else
    .rel ((splitSlash s).filter (fun c => c != "" && c != "."))

/-- `PermissionManager._normalize_path`: absolute paths stand, relative
ones are joined onto the working directory. -/
def normalizePath (cwd : List String) : PyPath → List String
  | .abs c => c
  | .rel c => cwd ++ c

/-- Component-list prefix test: `q.relative_to(p)` succeeds exactly when
`p` is an initial segment of `q`. -/
def beginsWith : List String → List String → Bool
  | [], _ => true
  | _ :: _, [] => false
  | a :: as, b :: bs => if a = b then beginsWith as bs else false

/-- `PermissionManager._is_within_project`. -/
def is_within_project (cwd p : List String) : Bool :=
  beginsWith cwd p

/-- `PermissionManager._is_path_allowed`: the target is under (or equal
to) one of the allow-listed paths, each normalized against the working
directory. -/
def is_path_allowed (cwd : List String) (p : List String)
    (allowed_paths : List String) : Bool :=
  allowed_paths.any (fun allowed => beginsWith (normalizePath cwd (parsePath allowed)) p)

/-- String form of a normalized path for storage in the allow-list:
`str(path.relative_to(cwd))` when under the working directory (which is
`"."` for the directory itself), else `str(path)`. -/
def renderPath (cwd : List String) (p : List String) : String :=
  if beginsWith cwd p then
    match p.drop cwd.length with
    | [] => "."
    | c :: cs => joinSlash (c :: cs)
  else "/" ++ joinSlash p

/-- Cache keys of the permission cache: `f"read:{path}"`,
`f"write:{path}"` and `f"exec:{command}:{cwd}"` (the exec key uses the
raw `cwd` argument, before normalization). -/
inductive CacheKey where
  | read (p : List String)
  | write (p : List String)
  | exec (command : String) (cwd : Option String)
deriving DecidableEq, Repr

/-- Lookup in the in-memory permission cache. -/
def cacheLookup : List (CacheKey × Bool) → CacheKey → Option Bool
  | [], _ => none
  | (k, v) :: rest, key => if k = key then some v else cacheLookup rest key

/-- The two allow-lists of the project configuration
(`permissions.file_operations["always_allow"]` and
`permissions.command_execution["allowed_paths"]`); `none` models an
absent dictionary key. -/
structure ProjectPermissions where
  file_always_allow : Option (List String)
  cmd_allowed_paths : Option (List String)
deriving DecidableEq, Repr

/-- State of a `PermissionManager`: working directory, in-memory project
configuration, the configuration last saved to disk (`none` before any
save), and the in-memory permission cache in insertion order. -/
structure PMState where
  cwd : List String
  config : ProjectPermissions
  disk : Option ProjectPermissions
  permission_cache : List (CacheKey × Bool)
deriving DecidableEq, Repr

/-- Operation kinds of the permission manager. -/
inductive Operation where
  | file_read
  | file_write
  | command_exec
deriving DecidableEq, Repr

/-- Outcome of the interactive three-way prompt (`Prompt.ask` re-asks
until one of `"1"`, `"2"`, `"3"` is given, defaulting to `"3"` on empty
input, so the outcome is always one of the three). -/
inductive Choice where
  | once
  | always
  | deny
deriving DecidableEq, Repr

/-- Update of the project configuration performed by
`_add_path_to_whitelist`: append `rel_path` to the operation's allow-list
when not already present (file reads and writes share
`file_operations["always_allow"]`). -/
def configAfterAdd (config : ProjectPermissions) (rel_path : String) :
    Operation → ProjectPermissions
  | .file_read | .file_write =>
    let allowed_list := config.file_always_allow.getD []
    if rel_path ∈ allowed_list then config
    else { config with file_always_allow := some (allowed_list ++ [rel_path]) }
  | .command_exec =>
    let allowed_list := config.cmd_allowed_paths.getD []
    if rel_path ∈ allowed_list then config
    else { config with cmd_allowed_paths := some (allowed_list ++ [rel_path]) }

/-- `PermissionManager._add_path_to_whitelist` (`permissions.py` lines
194-228): append the rendered relative path to the operation's allow-list
when not already present, then save the configuration.  Writing the
configuration file is modelled as always succeeding. -/
def add_path_to_whitelist (st : PMState) (path : List String)
    (operation : Operation) : Bool × PMState :=
  let config' := configAfterAdd st.config (renderPath st.cwd path) operation
  (true, { st with config := config', disk := some config' })

/-- `PermissionManager.prompt_for_permission` (`permissions.py` lines
230-278).  Choice 1 allows without touching any state; choice 2 adds the
normalized path to the allow-list and saves (and allows even if saving
fails); choice 3 denies. -/
def prompt_for_permission (st : PMState) (choice : Choice) (path : String)
    (operation : Operation) : Bool × PMState :=
  match choice with
  | .once => (true, st)
  | .always =>
    let normalized_path := normalizePath st.cwd (parsePath path)
    let st' := (add_path_to_whitelist st normalized_path operation).2
    (true, st')
  | .deny => (false, st)

/-- `PermissionManager.can_read_file` (`permissions.py` lines 81-116).
The `choice` parameter supplies the user's answer should the interactive
prompt be reached. -/
def can_read_file (st : PMState) (file_path : String) (prompt_user : Bool)
    (choice : Choice) : Bool × PMState :=
  let path := normalizePath st.cwd (parsePath file_path)
  let cache_key := CacheKey.read path
  match cacheLookup st.permission_cache cache_key with
  | some b => (b, st)
  | none =>
    if ¬ is_within_project st.cwd path then
      if prompt_user then prompt_for_permission st choice file_path .file_read
      else (false, st)
    else
      let allowed_paths := st.config.file_always_allow.getD ["."]
      if is_path_allowed st.cwd path allowed_paths then
        (true, { st with permission_cache := st.permission_cache ++ [(cache_key, true)] })
      else if prompt_user then prompt_for_permission st choice file_path .file_read
      else (false, st)

/-- `PermissionManager.can_write_file` (`permissions.py` lines 118-153):
same shape as `can_read_file`, consulting the same
`file_operations["always_allow"]` list. -/
def can_write_file (st : PMState) (file_path : String) (prompt_user : Bool)
    (choice : Choice) : Bool × PMState :=
  let path := normalizePath st.cwd (parsePath file_path)
  let cache_key := CacheKey.write path
  match cacheLookup st.permission_cache cache_key with
  | some b => (b, st)
  | none =>
    if ¬ is_within_project st.cwd path then
      if prompt_user then prompt_for_permission st choice file_path .file_write
      else (false, st)
    else
      let allowed_paths := st.config.file_always_allow.getD ["."]
      if is_path_allowed st.cwd path allowed_paths then
        (true, { st with permission_cache := st.permission_cache ++ [(cache_key, true)] })
      else if prompt_user then prompt_for_permission st choice file_path .file_write
      else (false, st)

/-- `PermissionManager.can_execute_command` (`permissions.py` lines
155-192): the command is gated by its working directory; the prompt, when
reached, receives the command string itself as the path argument. -/
def can_execute_command (st : PMState) (command : String) (cwd : Option String)
    (prompt_user : Bool) (choice : Choice) : Bool × PMState :=
  let cache_key := CacheKey.exec command cwd
  match cacheLookup st.permission_cache cache_key with
  | some b => (b, st)
  | none =>
    let exec_cwd :=
      match cwd with
      | some c => normalizePath st.cwd (parsePath c)
      | none => st.cwd
    if ¬ is_within_project st.cwd exec_cwd then
      if prompt_user then prompt_for_permission st choice command .command_exec
      else (false, st)
    else
      let allowed_paths := st.config.cmd_allowed_paths.getD ["."]
      if is_path_allowed st.cwd exec_cwd allowed_paths then
        (true, { st with permission_cache := st.permission_cache ++ [(cache_key, true)] })
      else if prompt_user then prompt_for_permission st choice command .command_exec
      else (false, st)

/-! Agent loop: termination and per-round result correlation -/

theorem toolLoopGo_rounds_le (respond : List Message → String × Option (List ToolCall))
    (jsonLoads : String → Except String Json) (jsonDumps : Json → String)
    (tool_executor : Json → Json → Except String String) :
    ∀ (fuel : Nat) (msgs : List Message) (rounds : Nat),
      (toolLoopGo respond jsonLoads jsonDumps tool_executor msgs fuel rounds).2
        ≤ rounds + fuel := by
  intro fuel
  induction fuel with
  | zero => intro msgs rounds; simp [toolLoopGo]
  | succ n ih =>
    intro msgs rounds
    rcases hr : respond msgs with ⟨t, tc?⟩
    rcases tc? with _ | tcs
    · simp [toolLoopGo, hr]
    · rcases tcs with _ | ⟨tc, rest⟩
      · simp [toolLoopGo, hr]
      · simp only [toolLoopGo, hr]
        exact le_trans (ih _ _) (by omega)

theorem toolLoopGo_always_tools (respond : List Message → String × Option (List ToolCall))
    (jsonLoads : String → Except String Json) (jsonDumps : Json → String)
    (tool_executor : Json → Json → Except String String)
    (h : ∀ msgs, ∃ t tc tcs, respond msgs = (t, some (tc :: tcs))) :
    ∀ (fuel : Nat) (msgs : List Message) (rounds : Nat),
      toolLoopGo respond jsonLoads jsonDumps tool_executor msgs fuel rounds
        = ("Max iterations reached", rounds + fuel) := by
  intro fuel
  induction fuel with
  | zero => intro msgs rounds; simp [toolLoopGo]
  | succ n ih =>
    intro msgs rounds
    obtain ⟨t, tc, tcs, heq⟩ := h msgs
    simp only [toolLoopGo, heq]
    rw [ih]
    have harith : rounds + 1 + n = rounds + (n + 1) := by omega
    rw [harith]

/-- C1: when the model returns tool calls on every round, the agent loop
performs exactly `max_iterations` model-call rounds and returns the
sentinel string `"Max iterations reached"`; for any model behaviour at
all it never performs more than `max_iterations` rounds; and the default
of `max_iterations` is 10. -/
theorem call_with_tool_loop_max_iterations
    (respond : List Message → String × Option (List ToolCall))
    (jsonLoads : String → Except String Json) (jsonDumps : Json → String)
    (tool_executor : Json → Json → Except String String)
    (initial_message : String) (max_iterations : Nat)
    (h : ∀ msgs, ∃ t tc tcs, respond msgs = (t, some (tc :: tcs))) :
    call_with_tool_loop respond jsonLoads jsonDumps tool_executor
        initial_message max_iterations
      = ("Max iterations reached", max_iterations)
    ∧ (∀ (respond' : List Message → String × Option (List ToolCall))
         (exec' : Json → Json → Except String String),
        (call_with_tool_loop respond' jsonLoads jsonDumps exec'
            initial_message max_iterations).2
          ≤ max_iterations)
    ∧ defaultMaxIterations = 10 := by
  refine ⟨?_, ?_, rfl⟩
  · unfold call_with_tool_loop
    rw [toolLoopGo_always_tools respond jsonLoads jsonDumps tool_executor h]
    simp
  · intro respond' exec'
    have hb := toolLoopGo_rounds_le respond' jsonLoads jsonDumps exec' max_iterations
      [{ role := "user", content := .str initial_message,
         tool_calls := none, tool_call_id := none }] 0
    unfold call_with_tool_loop
    omega

def wRespond : List Message → String × Option (List ToolCall) :=
  fun _ => ("", some [⟨"call_1", "function", .obj []⟩])

def wLoads : String → Except String Json := fun _ => .ok (Json.obj [])

def wDumps : Json → String := fun _ => ""

def wExec : Json → Json → Except String String := fun _ _ => .ok "done"

theorem call_with_tool_loop_max_iterations_witness :
    call_with_tool_loop wRespond wLoads wDumps wExec "go" 3
      = ("Max iterations reached", 3) :=
  (call_with_tool_loop_max_iterations wRespond wLoads wDumps wExec "go" 3
    (fun _ => ⟨"", ⟨"call_1", "function", .obj []⟩, [], rfl⟩)).1

/-- C2: within one round, the collected tool-result list has exactly one
entry per tool call, paired in the original order; each entry carries the
constant `tool_result` tag and the id of its originating call, and its
content is the executor's result, or `"Error: <message>"` when evaluating
the call's arguments or executing it raised — so the round is never
aborted by a single failing call. -/
theorem tool_results_correlate (jsonLoads : String → Except String Json)
    (tool_executor : Json → Json → Except String String) (tcs : List ToolCall) :
    (roundToolResults jsonLoads tool_executor tcs).length = tcs.length
    ∧ List.Forall₂ (fun tc r =>
        r.type = "tool_result" ∧ r.tool_use_id = tc.id ∧
        ((∃ args result, tc.arguments jsonLoads = .ok args
            ∧ tool_executor tc.name args = .ok result ∧ r.content = result)
         ∨ (∃ e, r.content = "Error: " ++ e
             ∧ (tc.arguments jsonLoads = .error e
                ∨ ∃ args, tc.arguments jsonLoads = .ok args
                    ∧ tool_executor tc.name args = .error e))))
      tcs (roundToolResults jsonLoads tool_executor tcs) := by
  constructor
  · simp [roundToolResults]
  · induction tcs with
    | nil => exact .nil
    | cons tc rest ih =>
      simp only [roundToolResults, List.map_cons]
      refine List.Forall₂.cons ?_ ?_
      · cases ha : tc.arguments jsonLoads with
        | error e =>
          have hx : execOne jsonLoads tool_executor tc
              = { type := "tool_result", tool_use_id := tc.id,
                  content := "Error: " ++ e } := by
            simp [execOne, ha]
          rw [hx]
          exact ⟨rfl, rfl, Or.inr ⟨e, rfl, Or.inl rfl⟩⟩
        | ok args =>
          cases he : tool_executor tc.name args with
          | ok result =>
            have hx : execOne jsonLoads tool_executor tc
                = { type := "tool_result", tool_use_id := tc.id,
                    content := result } := by
              simp [execOne, ha, he]
            rw [hx]
            exact ⟨rfl, rfl, Or.inl ⟨args, result, rfl, he, rfl⟩⟩
          | error e =>
            have hx : execOne jsonLoads tool_executor tc
                = { type := "tool_result", tool_use_id := tc.id,
                    content := "Error: " ++ e } := by
              simp [execOne, ha, he]
            rw [hx]
            exact ⟨rfl, rfl, Or.inr ⟨e, rfl, Or.inr ⟨args, rfl, he⟩⟩⟩
      · simpa [roundToolResults] using ih

/-! Provider adapter: serialization round-trip -/

theorem fieldLookup_setKey (l : List (String × Json)) (k : String) (v : Json) :
    fieldLookup (setKey l k v) k = some v := by
  induction l with
  | nil => simp [setKey, fieldLookup]
  | cons kv rest ih =>
    rcases kv with ⟨k', v'⟩
    by_cases hk : k' = k
    · simp [setKey, hk, fieldLookup]
    · simp [setKey, hk, fieldLookup, ih]

theorem serialize_message_content_with_tool_calls (m : Message) (tc0 : Json)
    (tcs : List Json) (h : m.tool_calls = some (tc0 :: tcs)) :
    jgetD (AnthropicToolCaller.serialize_message m) "content" (.arr [])
      = .arr (existingBlocks m.content ++ (tc0 :: tcs).map toolUseBlockOfCall) := by
  unfold AnthropicToolCaller.serialize_message
  rw [h]
  simp [jgetD, jget, fieldLookup_setKey]

theorem extract_tool_calls_on_blocks (blocks : List Json) :
    AnthropicToolCaller.extract_tool_calls
        (Json.obj [("message", Json.obj [("content", Json.arr blocks)])])
      = blocks.filterMap extractBlockToolCall := by
  simp [AnthropicToolCaller.extract_tool_calls, jgetD, jget, fieldLookup]

theorem extractBlockToolCall_toolUseBlock (tc : Json) :
    extractBlockToolCall (toolUseBlockOfCall tc)
      = some { id := pyStrOrEmpty (jgetD tc "id" .null), type := "function",
               function := .obj [("name", rawCallName tc),
                                 ("arguments", rawCallArguments tc)] } := by
  simp [extractBlockToolCall, toolUseBlockOfCall, isToolUseBlock, jget, jgetD,
    fieldLookup]

theorem existingBlocks_filterMap_nil (c : PyContent) :
    (existingBlocks c).filterMap extractBlockToolCall = [] := by
  cases c with
  | none => rfl
  | str s =>
    simp [existingBlocks, extractBlockToolCall, isToolUseBlock, jget, fieldLookup]
  | blocks bs =>
    simp only [existingBlocks]
    rw [List.filterMap_eq_nil_iff]
    intro b hb
    rw [List.mem_filter] at hb
    have hfalse : isToolUseBlock b = false := by simpa using hb.2
    simp [extractBlockToolCall, hfalse]

theorem filterMap_all_some {α β : Type _} (f : α → Option β) (g : α → β)
    (h : ∀ a, f a = some (g a)) : ∀ l : List α, l.filterMap f = l.map g := by
  intro l
  induction l with
  | nil => rfl
  | cons a l ih => simp [List.filterMap_cons, h a, ih]

theorem forall2_map_self {α β : Type _} (P : α → β → Prop) (g : α → β)
    (h : ∀ a, P a (g a)) : ∀ l : List α, List.Forall₂ P l (l.map g) := by
  intro l
  induction l with
  | nil => exact .nil
  | cons a l ih => exact .cons (h a) ih

/-- C3: serializing an assistant message carrying tool calls with the
Anthropic adapter and re-extracting tool calls from a response whose
message content is that serialized content yields exactly one `ToolCall`
per original call, in order, with the same name and the same arguments
payload as the original raw call dictionary. -/
theorem serialize_extract_round_trip (m : Message) (tc0 : Json) (tcs : List Json)
    (h : m.tool_calls = some (tc0 :: tcs)) :
    (AnthropicToolCaller.extract_tool_calls
        (Json.obj [("message", Json.obj [("content",
            jgetD (AnthropicToolCaller.serialize_message m) "content" (.arr []))])])).length
      = (tc0 :: tcs).length
    ∧ List.Forall₂ (fun tc extracted =>
          extracted.name = rawCallName tc
          ∧ jget extracted.function "arguments" = some (rawCallArguments tc))
        (tc0 :: tcs)
        (AnthropicToolCaller.extract_tool_calls
          (Json.obj [("message", Json.obj [("content",
              jgetD (AnthropicToolCaller.serialize_message m) "content" (.arr []))])])) := by
  have hext : AnthropicToolCaller.extract_tool_calls
      (Json.obj [("message", Json.obj [("content",
          jgetD (AnthropicToolCaller.serialize_message m) "content" (.arr []))])])
      = (tc0 :: tcs).map (fun tc =>
          { id := pyStrOrEmpty (jgetD tc "id" .null), type := "function",
            function := .obj [("name", rawCallName tc),
                              ("arguments", rawCallArguments tc)] }) := by
    rw [serialize_message_content_with_tool_calls m tc0 tcs h,
      extract_tool_calls_on_blocks, List.filterMap_append,
      existingBlocks_filterMap_nil, List.filterMap_map,
      filterMap_all_some _ _ (fun tc => by
        simpa [Function.comp] using extractBlockToolCall_toolUseBlock tc)]
    simp
  rw [hext]
  constructor
  · simp
  · apply forall2_map_self
    intro tc
    constructor
    · simp [ToolCall.name, jgetD, jget, fieldLookup]
    · simp [jget, fieldLookup]

def wCall1 : Json :=
  .obj [("id", .str "a1"), ("type", .str "function"),
        ("function", .obj [("name", .str "read_file"),
                           ("arguments", .obj [("file_path", .str "x")])])]

def wCall2 : Json :=
  .obj [("id", .str "a2"), ("type", .str "function"),
        ("function", .obj [("name", .str "search_web"),
                           ("arguments", .str "\x7b\x7d")])]

def wMsg : Message :=
  { role := "assistant", content := .str "calling tools",
    tool_calls := some [wCall1, wCall2], tool_call_id := none }

theorem serialize_extract_round_trip_witness :
    (AnthropicToolCaller.extract_tool_calls
        (Json.obj [("message", Json.obj [("content",
            jgetD (AnthropicToolCaller.serialize_message wMsg) "content" (.arr []))])])).length
      = ([wCall1, wCall2] : List Json).length
    ∧ List.Forall₂ (fun tc extracted =>
          extracted.name = rawCallName tc
          ∧ jget extracted.function "arguments" = some (rawCallArguments tc))
        [wCall1, wCall2]
        (AnthropicToolCaller.extract_tool_calls
          (Json.obj [("message", Json.obj [("content",
              jgetD (AnthropicToolCaller.serialize_message wMsg) "content" (.arr []))])])) :=
  serialize_extract_round_trip wMsg wCall1 [wCall2] rfl

/-! Tool executor: total for known tools, raising only on unknown names -/

/-- C4: `ToolExecutor.execute` returns a string for each of the four
recognized tool names and arbitrary arguments — every underlying failure
is folded into the result string — and raises exactly on unrecognized
names. -/
theorem execute_ok_iff_known_tool (env : ToolEnv) (tool_name : String)
    (arguments : List (String × String)) :
    (∃ s, ToolExecutor.execute env tool_name arguments = .ok s)
      ↔ (tool_name = "execute_command" ∨ tool_name = "read_file"
          ∨ tool_name = "write_file" ∨ tool_name = "search_web") := by
  constructor
  · intro hs
    by_contra hn
    push_neg at hn
    obtain ⟨h1, h2, h3, h4⟩ := hn
    obtain ⟨s, hs⟩ := hs
    simp [ToolExecutor.execute, h1, h2, h3, h4] at hs
  · intro hn
    rcases hn with h | h | h | h <;> subst h
    · exact ⟨executeCommandTool env arguments, rfl⟩
    · exact ⟨readFileTool env arguments, rfl⟩
    · exact ⟨writeFileTool env arguments, rfl⟩
    · exact ⟨searchWebTool env arguments, rfl⟩

def wEnv : ToolEnv :=
  { runCommand := fun _ => .ok ("out", "", 0),
    readFile := fun _ => .notFound,
    writeFile := fun _ _ => .ok (),
    searchWeb := fun _ => .ok "results" }

theorem execute_ok_iff_known_tool_witness :
    ∃ s, ToolExecutor.execute wEnv "read_file" [("file_path", "missing.txt")]
      = .ok s :=
  (execute_ok_iff_known_tool wEnv "read_file" [("file_path", "missing.txt")]).mpr
    (Or.inr (Or.inl rfl))

theorem argsGet_append_self (l : List (String × String)) (k v : String)
    (h : argsGet l k = none) : argsGet (l ++ [(k, v)]) k = some v := by
  induction l with
  | nil => simp [argsGet]
  | cons kv rest ih =>
    rcases kv with ⟨k0, v0⟩
    by_cases hk : k0 = k
    · simp [argsGet, hk] at h
    · simp only [argsGet, hk, if_false, List.cons_append, if_neg hk] at h ⊢
      exact ih h

theorem argsGet_append_other (l : List (String × String)) (k v k' : String)
    (h : ¬ k = k') : argsGet (l ++ [(k, v)]) k' = argsGet l k' := by
  induction l with
  | nil => simp [argsGet, h]
  | cons kv rest ih =>
    rcases kv with ⟨k0, v0⟩
    by_cases hk : k0 = k'
    · simp [argsGet, hk]
    · simp [argsGet, hk, ih]

/-- C5 counterexample: calling `write_file` with `content` absent is not
rejected with `"Error: content parameter is required"`; the write is
attempted with the empty string and succeeds. -/
theorem write_file_missing_content_counterexample :
    ToolExecutor.execute wEnv "write_file" [("file_path", "f")]
      = .ok "Successfully wrote 0 bytes to f"
    ∧ "Successfully wrote 0 bytes to f" ≠ "Error: content parameter is required" := by
  constructor
  · rfl
  · decide

/-- C5 (amended): for `command` of `execute_command`, `file_path` of
`read_file` and of `write_file`, and `query` of `search_web`, an absent
parameter yields exactly `"Error: <arg> parameter is required"` without
attempting the operation (the result is a constant, independent of the
collaborators); `content` of `write_file`, however, is not checked: when
absent it defaults to the empty string and the write proceeds. -/
theorem missing_required_parameter_errors :
    (∀ (env : ToolEnv) (arguments : List (String × String)),
        argsGet arguments "command" = none →
          ToolExecutor.execute env "execute_command" arguments
            = .ok "Error: command parameter is required")
    ∧ (∀ (env : ToolEnv) (arguments : List (String × String)),
        argsGet arguments "file_path" = none →
          ToolExecutor.execute env "read_file" arguments
            = .ok "Error: file_path parameter is required")
    ∧ (∀ (env : ToolEnv) (arguments : List (String × String)),
        argsGet arguments "file_path" = none →
          ToolExecutor.execute env "write_file" arguments
            = .ok "Error: file_path parameter is required")
    ∧ (∀ (env : ToolEnv) (arguments : List (String × String)),
        argsGet arguments "query" = none →
          ToolExecutor.execute env "search_web" arguments
            = .ok "Error: query parameter is required")
    ∧ (∀ (env : ToolEnv) (arguments : List (String × String)),
        argsGet arguments "content" = none →
          ToolExecutor.execute env "write_file" arguments
            = ToolExecutor.execute env "write_file" (arguments ++ [("content", "")])) := by
  refine ⟨?_, ?_, ?_, ?_, ?_⟩
  · intro env arguments h
    simp [ToolExecutor.execute, executeCommandTool, h]
  · intro env arguments h
    simp [ToolExecutor.execute, readFileTool, h]
  · intro env arguments h
    simp [ToolExecutor.execute, writeFileTool, h]
  · intro env arguments h
    simp [ToolExecutor.execute, searchWebTool, h]
  · intro env arguments h
    have h2 : argsGet (arguments ++ [("content", "")]) "content" = some "" :=
      argsGet_append_self arguments "content" "" h
    have h3 : argsGet (arguments ++ [("content", "")]) "file_path"
        = argsGet arguments "file_path" :=
      argsGet_append_other arguments "content" "" "file_path" (by decide)
    cases hfp : argsGet arguments "file_path" with
    | none => simp [ToolExecutor.execute, writeFileTool, h, h2, h3, hfp]
    | some fp => simp [ToolExecutor.execute, writeFileTool, h, h2, h3, hfp]

theorem missing_required_parameter_errors_witness :
    ToolExecutor.execute wEnv "execute_command" []
        = .ok "Error: command parameter is required"
    ∧ ToolExecutor.execute wEnv "read_file" []
        = .ok "Error: file_path parameter is required"
    ∧ ToolExecutor.execute wEnv "write_file" []
        = .ok "Error: file_path parameter is required"
    ∧ ToolExecutor.execute wEnv "search_web" []
        = .ok "Error: query parameter is required"
    ∧ ToolExecutor.execute wEnv "write_file" [("file_path", "f")]
        = ToolExecutor.execute wEnv "write_file" [("file_path", "f"), ("content", "")] :=
  ⟨missing_required_parameter_errors.1 wEnv [] rfl,
   missing_required_parameter_errors.2.1 wEnv [] rfl,
   missing_required_parameter_errors.2.2.1 wEnv [] rfl,
   missing_required_parameter_errors.2.2.2.1 wEnv [] rfl,
   missing_required_parameter_errors.2.2.2.2 wEnv [("file_path", "f")] rfl⟩

/-! Streaming: SSE line handling and the done sentinel -/

theorem doChatStreamLines_cons_of_not_done (decode : String → Option Json)
    (line : String) (rest : List String) (h : isDoneLine line = false) :
    doChatStreamLines decode (line :: rest)
      = match lineFragment decode line with
        | none => doChatStreamLines decode rest
        | some c => c :: doChatStreamLines decode rest := by
  by_cases h1 : (isBlankLine line || strStartsWith line ":") = true
  · have hf : lineFragment decode line = none := by simp [lineFragment, h1]
    rw [hf]
    simp only [doChatStreamLines]
    rw [if_pos h1]
  · by_cases h2 : strStartsWith line "data: " = true
    · by_cases h3 : strDrop line 6 = "[DONE]"
      · exfalso
        simp [isDoneLine, h1, h2, h3] at h
      · simp only [doChatStreamLines, lineFragment]
        rw [if_neg h1, if_neg h1, if_pos h2, if_pos h2, if_neg h3]
        cases hdec : decode (strDrop line 6) with
        | none => rfl
        | some chunk =>
          have hgoal : ∀ o : Option Json,
              (match o with
                | some c => c :: doChatStreamLines decode rest
                | none => doChatStreamLines decode rest)
              = (match o with
                | none => doChatStreamLines decode rest
                | some c => c :: doChatStreamLines decode rest) := by
            intro o
            cases o <;> rfl
          exact hgoal (chunkContent chunk)
    · have hf : lineFragment decode line = none := by simp [lineFragment, h1, h2]
      rw [hf]
      simp only [doChatStreamLines]
      rw [if_neg h1, if_neg h2]

/-- C6 counterexample: the literal `"stream終了"` is not a stream
terminator — a later fragment is still yielded past it — whereas a
`"[DONE]"` data line does terminate the stream early. -/
theorem stream_sentinel_counterexample :
    doChatStreamLines (fun s => if s = "X" then some (.obj [("choices",
        .arr [.obj [("delta", .obj [("content", .str "after")])]])]) else none)
      ["data: stream終了", "data: X"] = [.str "after"]
    ∧ doChatStreamLines (fun s => if s = "X" then some (.obj [("choices",
        .arr [.obj [("delta", .obj [("content", .str "after")])]])]) else none)
      ["data: [DONE]", "data: X"] = [] :=
  ⟨rfl, rfl⟩

/-- C6 (amended): the stream loop discards blank and comment lines,
decodes each data line and yields its `choices[0].delta.content` fragment
in arrival order, skips fragments that fail to decode without aborting,
and terminates early exactly on the literal `"[DONE]"` data line (not on
`"stream終了"`): absent a done line the output is the in-order
concatenation of the per-line fragments, and with one, everything after
it is ignored. -/
theorem stream_lines_spec :
    (∀ (decode : String → Option Json) (lines : List String),
        (∀ l ∈ lines, isDoneLine l = false) →
          doChatStreamLines decode lines = lines.filterMap (lineFragment decode))
    ∧ (∀ (decode : String → Option Json) (pre : List String) (dline : String)
          (post : List String), isDoneLine dline = true →
        (∀ l ∈ pre, isDoneLine l = false) →
          doChatStreamLines decode (pre ++ dline :: post)
            = pre.filterMap (lineFragment decode)) := by
  constructor
  · intro decode lines
    induction lines with
    | nil => intro _; rfl
    | cons line rest ih =>
      intro hno
      have hline : isDoneLine line = false := hno line (List.mem_cons_self line rest)
      have hrest : ∀ l ∈ rest, isDoneLine l = false :=
        fun l hl => hno l (List.mem_cons_of_mem _ hl)
      rw [doChatStreamLines_cons_of_not_done decode line rest hline, List.filterMap_cons]
      cases hf : lineFragment decode line with
      | none => exact ih hrest
      | some c => rw [ih hrest]
  · intro decode pre dline post hd
    induction pre with
    | nil =>
      intro _
      have h1 : ¬((isBlankLine dline || strStartsWith dline ":") = true) := by
        intro hc; simp [isDoneLine, hc] at hd
      have h2 : strStartsWith dline "data: " = true := by
        by_contra hc; simp [isDoneLine, h1, hc] at hd
      have h3 : strDrop dline 6 = "[DONE]" := by
        by_contra hc; simp [isDoneLine, h1, h2, hc] at hd
      simp [doChatStreamLines, h1, h2, h3]
    | cons p pre' ih =>
      intro hno
      have hp : isDoneLine p = false := hno p (List.mem_cons_self p pre')
      have hpre' : ∀ l ∈ pre', isDoneLine l = false :=
        fun l hl => hno l (List.mem_cons_of_mem _ hl)
      rw [List.cons_append, doChatStreamLines_cons_of_not_done decode p _ hp,
        List.filterMap_cons]
      cases hf : lineFragment decode p with
      | none => exact ih hpre'
      | some c => rw [ih hpre']

def helloDecode : String → Option Json :=
  fun s =>
    if s = "H1" then some (.obj [("choices", .arr [.obj [("delta",
      .obj [("content", .str "Hel")])]])])
    else if s = "H2" then some (.obj [("choices", .arr [.obj [("delta",
      .obj [("content", .str "lo")])]])])
    else none

theorem stream_lines_spec_witness :
    doChatStreamLines helloDecode
        ["data: H1", "data: H2", "data: [DONE]", "data: H1"]
      = [.str "Hel", .str "lo"] :=
  (stream_lines_spec.2 helloDecode ["data: H1", "data: H2"] "data: [DONE]"
    ["data: H1"] (by decide) (by decide)).trans rfl

/-! Transport retry policy -/

/-- A failed attempt whose parsed status code is truthy and retryable, so
the retry loop would sleep and try again if attempts remain. -/
def RetryableFailure (r : Except APIErr (List String)) : Prop :=
  ∃ e, r = .error e
    ∧ ∃ sc, e.status = some sc ∧ (sc != 0 && is_retryable_error sc) = true

theorem chatStreamGo_attempts_le (attempt : Nat → Except APIErr (List String))
    (f : ℚ) : ∀ (fuel i : Nat) (d : ℚ) (sleeps : List ℚ),
      (chatStreamGo attempt f i fuel d sleeps).2.2 ≤ i + fuel + 1 := by
  intro fuel
  induction fuel with
  | zero =>
    intro i d sleeps
    cases hA : attempt i with
    | ok tokens =>
      have hx : (chatStreamGo attempt f i 0 d sleeps).2.2 = i + 1 := by
        simp [chatStreamGo, hA]
      omega
    | error e =>
      cases hs : e.status with
      | none =>
        have hx : (chatStreamGo attempt f i 0 d sleeps).2.2 = i + 1 := by
          simp [chatStreamGo, hA, hs]
        omega
      | some sc =>
        have hx : (chatStreamGo attempt f i 0 d sleeps).2.2 = i + 1 := by
          simp [chatStreamGo, hA, hs]
        omega
  | succ n ih =>
    intro i d sleeps
    cases hA : attempt i with
    | ok tokens =>
      have hx : (chatStreamGo attempt f i (n + 1) d sleeps).2.2 = i + 1 := by
        simp [chatStreamGo, hA]
      omega
    | error e =>
      cases hs : e.status with
      | none =>
        have hx : (chatStreamGo attempt f i (n + 1) d sleeps).2.2 = i + 1 := by
          simp [chatStreamGo, hA, hs]
        omega
      | some sc =>
        by_cases hr : (sc != 0 && is_retryable_error sc) = true
        · have hx : chatStreamGo attempt f i (n + 1) d sleeps
              = chatStreamGo attempt f (i + 1) n (d * f) (sleeps ++ [d]) := by
            simp [chatStreamGo, hA, hs, hr]
          rw [hx]
          exact le_trans (ih (i + 1) _ _) (by omega)
        · have hx : (chatStreamGo attempt f i (n + 1) d sleeps).2.2 = i + 1 := by
            simp [chatStreamGo, hA, hs, hr]
          omega

theorem chatStreamGo_success_after (attempt : Nat → Except APIErr (List String))
    (f : ℚ) (toks : List String) :
    ∀ (k i fuel : Nat) (d : ℚ) (sleeps : List ℚ),
      k ≤ fuel →
      (∀ j, j < k → RetryableFailure (attempt (i + j))) →
      attempt (i + k) = .ok toks →
      chatStreamGo attempt f i fuel d sleeps
        = (.ok toks, sleeps ++ geomDelays d f k, i + k + 1) := by
  intro k
  induction k with
  | zero =>
    intro i fuel d sleeps _ _ hok
    rw [Nat.add_zero] at hok
    cases fuel <;> simp [chatStreamGo, hok, geomDelays]
  | succ n ih =>
    intro i fuel d sleeps hle hfail hok
    obtain ⟨e, he, sc, hsc, hr⟩ := hfail 0 (Nat.succ_pos n)
    rw [Nat.add_zero] at he
    cases fuel with
    | zero => omega
    | succ m =>
      have hstep : chatStreamGo attempt f i (m + 1) d sleeps
          = chatStreamGo attempt f (i + 1) m (d * f) (sleeps ++ [d]) := by
        simp [chatStreamGo, he, hsc, hr]
      rw [hstep]
      have h2 : ∀ j, j < n → RetryableFailure (attempt (i + 1 + j)) := by
        intro j hj
        have hx := hfail (j + 1) (by omega)
        have harith : i + (j + 1) = i + 1 + j := by omega
        rwa [harith] at hx
      have h3 : attempt (i + 1 + n) = .ok toks := by
        have harith : i + (n + 1) = i + 1 + n := by omega
        rwa [harith] at hok
      rw [ih (i + 1) m (d * f) (sleeps ++ [d]) (by omega) h2 h3]
      have hlist : (sleeps ++ [d]) ++ geomDelays (d * f) f n
          = sleeps ++ geomDelays d f (n + 1) := by
        rw [List.append_assoc]; rfl
      rw [hlist]
      have harith : i + 1 + n + 1 = i + (n + 1) + 1 := by omega
      rw [harith]

theorem chatStreamGo_exhausted (attempt : Nat → Except APIErr (List String))
    (f : ℚ) :
    ∀ (fuel i : Nat) (d : ℚ) (sleeps : List ℚ),
      (∀ j, j ≤ fuel → RetryableFailure (attempt (i + j))) →
      ∃ e, attempt (i + fuel) = .error e
        ∧ (chatStreamGo attempt f i fuel d sleeps).1 = .error e := by
  intro fuel
  induction fuel with
  | zero =>
    intro i d sleeps hall
    obtain ⟨e, he, sc, hsc, hr⟩ := hall 0 (le_refl 0)
    rw [Nat.add_zero] at he
    refine ⟨e, by simpa using he, ?_⟩
    simp [chatStreamGo, he, hsc]
  | succ n ih =>
    intro i d sleeps hall
    obtain ⟨e, he, sc, hsc, hr⟩ := hall 0 (by omega)
    rw [Nat.add_zero] at he
    have hstep : chatStreamGo attempt f i (n + 1) d sleeps
        = chatStreamGo attempt f (i + 1) n (d * f) (sleeps ++ [d]) := by
      simp [chatStreamGo, he, hsc, hr]
    have h2 : ∀ j, j ≤ n → RetryableFailure (attempt (i + 1 + j)) := by
      intro j hj
      have hx := hall (j + 1) (by omega)
      have harith : i + (j + 1) = i + 1 + j := by omega
      rwa [harith] at hx
    obtain ⟨e2, he2, hres⟩ := ih (i + 1) (d * f) (sleeps ++ [d]) h2
    refine ⟨e2, ?_, ?_⟩
    · have harith : i + (n + 1) = i + 1 + n := by omega
      rw [harith]; exact he2
    · rw [hstep]; exact hres

/-- C7: `chat_stream` retries exactly on parsed statuses 429, 503, 504;
it makes at most `max_retries + 1` attempts; a non-retryable first
failure is raised immediately with no sleeps; `k` retryable failures
followed by a success yield the successful tokens after sleeping the
exponential back-off sequence `d, d*f, …` (so for two failures the total
waiting is `d + d*f`); and when every attempt fails retryably the raised
error is the last attempt's. -/
theorem chat_stream_retry_policy :
    (∀ sc : Nat, is_retryable_error sc = true ↔ (sc = 429 ∨ sc = 503 ∨ sc = 504))
    ∧ (∀ (attempt : Nat → Except APIErr (List String)) (max_retries : Nat) (d f : ℚ),
        (chat_stream attempt max_retries d f).2.2 ≤ max_retries + 1)
    ∧ (∀ (attempt : Nat → Except APIErr (List String)) (max_retries : Nat)
          (d f : ℚ) (e : APIErr),
        attempt 0 = .error e →
        (∀ sc, e.status = some sc → (sc != 0 && is_retryable_error sc) = false) →
          chat_stream attempt max_retries d f = (.error e, [], 1))
    ∧ (∀ (attempt : Nat → Except APIErr (List String)) (max_retries k : Nat)
          (d f : ℚ) (toks : List String),
        k ≤ max_retries →
        (∀ j, j < k → RetryableFailure (attempt j)) →
        attempt k = .ok toks →
          chat_stream attempt max_retries d f = (.ok toks, geomDelays d f k, k + 1))
    ∧ (∀ (attempt : Nat → Except APIErr (List String)) (max_retries : Nat) (d f : ℚ),
        (∀ j, j ≤ max_retries → RetryableFailure (attempt j)) →
          ∃ e, attempt max_retries = .error e
            ∧ (chat_stream attempt max_retries d f).1 = .error e) := by
  refine ⟨?_, ?_, ?_, ?_, ?_⟩
  · intro sc
    simp [is_retryable_error, or_assoc]
  · intro attempt mr d f
    have hx := chatStreamGo_attempts_le attempt f mr 0 d []
    unfold chat_stream
    omega
  · intro attempt mr d f e hA hnr
    unfold chat_stream
    cases hs : e.status with
    | none =>
      cases mr with
      | zero => simp [chatStreamGo, hA, hs]
      | succ m => simp [chatStreamGo, hA, hs]
    | some sc =>
      have hr := hnr sc hs
      cases mr with
      | zero => simp [chatStreamGo, hA, hs]
      | succ m => simp [chatStreamGo, hA, hs, hr]
  · intro attempt mr k d f toks hk hfail hok
    unfold chat_stream
    have hx := chatStreamGo_success_after attempt f toks k 0 mr d [] hk
      (fun j hj => by simpa using hfail j hj) (by simpa using hok)
    simpa using hx
  · intro attempt mr d f hall
    unfold chat_stream
    obtain ⟨e, he, hres⟩ := chatStreamGo_exhausted attempt f mr 0 d []
      (fun j hj => by simpa using hall j hj)
    exact ⟨e, by simpa using he, hres⟩

def errA : APIErr := { status := some 429, msg := "OpenRouter API error: 429" }

def errAuth : APIErr := { status := some 401, msg := "OpenRouter API error: 401" }

def attemptTwo429 : Nat → Except APIErr (List String) :=
  fun n => if n < 2 then .error errA else .ok ["Hello"]

def attemptAll429 : Nat → Except APIErr (List String) := fun _ => .error errA

def attemptAuthFail : Nat → Except APIErr (List String) := fun _ => .error errAuth

theorem chat_stream_retry_policy_witness :
    chat_stream attemptTwo429 3 1 2 = (.ok ["Hello"], [1, 1 * 2], 3)
    ∧ chat_stream attemptAuthFail 3 1 2 = (.error errAuth, [], 1)
    ∧ (chat_stream attemptAll429 3 1 2).1 = .error errA := by
  refine ⟨?_, ?_, ?_⟩
  · have hfail : ∀ j, j < 2 → RetryableFailure (attemptTwo429 j) := by
      intro j hj
      refine ⟨errA, ?_, 429, rfl, rfl⟩
      simp [attemptTwo429, hj]
    exact chat_stream_retry_policy.2.2.2.1 attemptTwo429 3 2 1 2 ["Hello"]
      (by omega) hfail rfl
  · refine chat_stream_retry_policy.2.2.1 attemptAuthFail 3 1 2 errAuth rfl ?_
    intro sc hsc
    cases hsc
    rfl
  · obtain ⟨e, he, hres⟩ := chat_stream_retry_policy.2.2.2.2 attemptAll429 3 1 2
      (fun j _ => ⟨errA, rfl, 429, rfl, rfl⟩)
    have he2 : e = errA := by
      have hx : (Except.error errA : Except APIErr (List String)) = .error e := he
      injection hx with h2
      exact h2.symm
    rw [he2] at hres
    exact hres

/-! Permission manager: shape lemmas, monotonicity and grants -/

theorem beginsWith_refl (l : List String) : beginsWith l l = true := by
  induction l with
  | nil => rfl
  | cons a l ih => simp [beginsWith, ih]

/-- The in-memory cache grows by a (possibly empty) suffix of fresh,
`true`-valued entries. -/
def cacheGrows (st st' : PMState) : Prop :=
  ∃ tail, st'.permission_cache = st.permission_cache ++ tail
    ∧ ∀ kv ∈ tail, kv.2 = true ∧ cacheLookup st.permission_cache kv.1 = none

/-- Everything a `PermissionManager` operation may do to its state: keep
the working directory, only append fresh `true` entries to the cache,
only append to either allow-list, and either leave the on-disk
configuration alone or save the (extended) in-memory configuration. -/
def PMGrows (st st' : PMState) : Prop :=
  st'.cwd = st.cwd
  ∧ cacheGrows st st'
  ∧ (∃ t, st'.config.file_always_allow.getD []
      = st.config.file_always_allow.getD [] ++ t)
  ∧ (∃ t, st'.config.cmd_allowed_paths.getD []
      = st.config.cmd_allowed_paths.getD [] ++ t)
  ∧ (st'.disk = st.disk ∨ st'.disk = some st'.config)

theorem PMGrows_refl (st : PMState) : PMGrows st st :=
  ⟨rfl, ⟨[], by simp, by simp⟩, ⟨[], by simp⟩, ⟨[], by simp⟩, Or.inl rfl⟩

theorem configAfterAdd_grows (config : ProjectPermissions) (rel : String)
    (o : Operation) :
    (∃ t, (configAfterAdd config rel o).file_always_allow.getD []
        = config.file_always_allow.getD [] ++ t)
    ∧ (∃ t, (configAfterAdd config rel o).cmd_allowed_paths.getD []
        = config.cmd_allowed_paths.getD [] ++ t) := by
  cases o with
  | file_read =>
    by_cases hmem : rel ∈ config.file_always_allow.getD []
    · refine ⟨⟨[], ?_⟩, ⟨[], ?_⟩⟩ <;> simp [configAfterAdd, hmem]
    · refine ⟨⟨[rel], ?_⟩, ⟨[], ?_⟩⟩ <;> simp [configAfterAdd, hmem]
  | file_write =>
    by_cases hmem : rel ∈ config.file_always_allow.getD []
    · refine ⟨⟨[], ?_⟩, ⟨[], ?_⟩⟩ <;> simp [configAfterAdd, hmem]
    · refine ⟨⟨[rel], ?_⟩, ⟨[], ?_⟩⟩ <;> simp [configAfterAdd, hmem]
  | command_exec =>
    by_cases hmem : rel ∈ config.cmd_allowed_paths.getD []
    · refine ⟨⟨[], ?_⟩, ⟨[], ?_⟩⟩ <;> simp [configAfterAdd, hmem]
    · refine ⟨⟨[], ?_⟩, ⟨[rel], ?_⟩⟩ <;> simp [configAfterAdd, hmem]

theorem prompt_grows (st : PMState) (choice : Choice) (path : String)
    (operation : Operation) :
    PMGrows st (prompt_for_permission st choice path operation).2
    ∧ (prompt_for_permission st choice path operation).2.permission_cache
        = st.permission_cache := by
  cases choice with
  | once => exact ⟨PMGrows_refl st, rfl⟩
  | deny => exact ⟨PMGrows_refl st, rfl⟩
  | always =>
    have hgrow := configAfterAdd_grows st.config
      (renderPath st.cwd (normalizePath st.cwd (parsePath path))) operation
    unfold prompt_for_permission add_path_to_whitelist
    exact ⟨⟨rfl, ⟨[], by simp, by simp⟩, hgrow.1, hgrow.2, Or.inr rfl⟩, rfl⟩

theorem prompt_false_unchanged (st : PMState) (choice : Choice) (path : String)
    (operation : Operation) :
    (prompt_for_permission st choice path operation).1 = false →
      (prompt_for_permission st choice path operation).2 = st := by
  cases choice with
  | once => intro h; simp [prompt_for_permission] at h
  | always => intro h; simp [prompt_for_permission] at h
  | deny => intro _; rfl

theorem can_read_file_cache_hit (st : PMState) (fp : String) (pu : Bool)
    (ch : Choice) (b : Bool)
    (h : cacheLookup st.permission_cache
      (CacheKey.read (normalizePath st.cwd (parsePath fp))) = some b) :
    can_read_file st fp pu ch = (b, st) := by
  simp only [can_read_file]
  rw [h]

theorem can_read_file_outside (st : PMState) (fp : String) (pu : Bool)
    (ch : Choice)
    (hc : cacheLookup st.permission_cache
      (CacheKey.read (normalizePath st.cwd (parsePath fp))) = none)
    (hw : is_within_project st.cwd (normalizePath st.cwd (parsePath fp)) = false) :
    can_read_file st fp pu ch
      = if pu then prompt_for_permission st ch fp .file_read else (false, st) := by
  simp only [can_read_file]
  rw [hc]
  simp [hw]

theorem can_read_file_allowed (st : PMState) (fp : String) (pu : Bool)
    (ch : Choice)
    (hc : cacheLookup st.permission_cache
      (CacheKey.read (normalizePath st.cwd (parsePath fp))) = none)
    (hw : is_within_project st.cwd (normalizePath st.cwd (parsePath fp)) = true)
    (ha : is_path_allowed st.cwd (normalizePath st.cwd (parsePath fp))
      (st.config.file_always_allow.getD ["."]) = true) :
    can_read_file st fp pu ch
      = (true, { st with permission_cache := st.permission_cache
          ++ [(CacheKey.read (normalizePath st.cwd (parsePath fp)), true)] }) := by
  simp only [can_read_file]
  rw [hc]
  simp [hw, ha]

theorem can_read_file_not_allowed (st : PMState) (fp : String) (pu : Bool)
    (ch : Choice)
    (hc : cacheLookup st.permission_cache
      (CacheKey.read (normalizePath st.cwd (parsePath fp))) = none)
    (hw : is_within_project st.cwd (normalizePath st.cwd (parsePath fp)) = true)
    (ha : is_path_allowed st.cwd (normalizePath st.cwd (parsePath fp))
      (st.config.file_always_allow.getD ["."]) = false) :
    can_read_file st fp pu ch
      = if pu then prompt_for_permission st ch fp .file_read else (false, st) := by
  simp only [can_read_file]
  rw [hc]
  simp [hw, ha]

theorem can_write_file_cache_hit (st : PMState) (fp : String) (pu : Bool)
    (ch : Choice) (b : Bool)
    (h : cacheLookup st.permission_cache
      (CacheKey.write (normalizePath st.cwd (parsePath fp))) = some b) :
    can_write_file st fp pu ch = (b, st) := by
  simp only [can_write_file]
  rw [h]

theorem can_write_file_outside (st : PMState) (fp : String) (pu : Bool)
    (ch : Choice)
    (hc : cacheLookup st.permission_cache
      (CacheKey.write (normalizePath st.cwd (parsePath fp))) = none)
    (hw : is_within_project st.cwd (normalizePath st.cwd (parsePath fp)) = false) :
    can_write_file st fp pu ch
      = if pu then prompt_for_permission st ch fp .file_write else (false, st) := by
  simp only [can_write_file]
  rw [hc]
  simp [hw]

theorem can_write_file_allowed (st : PMState) (fp : String) (pu : Bool)
    (ch : Choice)
    (hc : cacheLookup st.permission_cache
      (CacheKey.write (normalizePath st.cwd (parsePath fp))) = none)
    (hw : is_within_project st.cwd (normalizePath st.cwd (parsePath fp)) = true)
    (ha : is_path_allowed st.cwd (normalizePath st.cwd (parsePath fp))
      (st.config.file_always_allow.getD ["."]) = true) :
    can_write_file st fp pu ch
      = (true, { st with permission_cache := st.permission_cache
          ++ [(CacheKey.write (normalizePath st.cwd (parsePath fp)), true)] }) := by
  simp only [can_write_file]
  rw [hc]
  simp [hw, ha]

theorem can_write_file_not_allowed (st : PMState) (fp : String) (pu : Bool)
    (ch : Choice)
    (hc : cacheLookup st.permission_cache
      (CacheKey.write (normalizePath st.cwd (parsePath fp))) = none)
    (hw : is_within_project st.cwd (normalizePath st.cwd (parsePath fp)) = true)
    (ha : is_path_allowed st.cwd (normalizePath st.cwd (parsePath fp))
      (st.config.file_always_allow.getD ["."]) = false) :
    can_write_file st fp pu ch
      = if pu then prompt_for_permission st ch fp .file_write else (false, st) := by
  simp only [can_write_file]
  rw [hc]
  simp [hw, ha]

/-- The working directory a command runs in, as `can_execute_command`
normalizes it. -/
def execCwd (st : PMState) (cwd : Option String) : List String :=
  match cwd with
  | some c => normalizePath st.cwd (parsePath c)
  | none => st.cwd

theorem can_execute_command_cache_hit (st : PMState) (command : String)
    (cw : Option String) (pu : Bool) (ch : Choice) (b : Bool)
    (h : cacheLookup st.permission_cache (CacheKey.exec command cw) = some b) :
    can_execute_command st command cw pu ch = (b, st) := by
  simp only [can_execute_command]
  rw [h]

theorem can_execute_command_outside (st : PMState) (command : String)
    (cw : Option String) (pu : Bool) (ch : Choice)
    (hc : cacheLookup st.permission_cache (CacheKey.exec command cw) = none)
    (hw : is_within_project st.cwd (execCwd st cw) = false) :
    can_execute_command st command cw pu ch
      = if pu then prompt_for_permission st ch command .command_exec
        else (false, st) := by
  simp only [can_execute_command]
  rw [hc]
  cases cw <;> simp [execCwd] at hw ⊢ <;> simp [hw]

theorem can_execute_command_allowed (st : PMState) (command : String)
    (cw : Option String) (pu : Bool) (ch : Choice)
    (hc : cacheLookup st.permission_cache (CacheKey.exec command cw) = none)
    (hw : is_within_project st.cwd (execCwd st cw) = true)
    (ha : is_path_allowed st.cwd (execCwd st cw)
      (st.config.cmd_allowed_paths.getD ["."]) = true) :
    can_execute_command st command cw pu ch
      = (true, { st with permission_cache := st.permission_cache
          ++ [(CacheKey.exec command cw, true)] }) := by
  simp only [can_execute_command]
  rw [hc]
  cases cw <;> simp [execCwd] at hw ha ⊢ <;> simp [hw, ha]

theorem can_execute_command_not_allowed (st : PMState) (command : String)
    (cw : Option String) (pu : Bool) (ch : Choice)
    (hc : cacheLookup st.permission_cache (CacheKey.exec command cw) = none)
    (hw : is_within_project st.cwd (execCwd st cw) = true)
    (ha : is_path_allowed st.cwd (execCwd st cw)
      (st.config.cmd_allowed_paths.getD ["."]) = false) :
    can_execute_command st command cw pu ch
      = if pu then prompt_for_permission st ch command .command_exec
        else (false, st) := by
  simp only [can_execute_command]
  rw [hc]
  cases cw <;> simp [execCwd] at hw ha ⊢ <;> simp [hw, ha]

theorem prompt_or_deny_grows (st : PMState) (ch : Choice) (p : String)
    (o : Operation) (pu : Bool) :
    PMGrows st (if pu then prompt_for_permission st ch p o else (false, st)).2
    ∧ ((if pu then prompt_for_permission st ch p o else (false, st)).1 = false →
       (if pu then prompt_for_permission st ch p o else (false, st)).2 = st) := by
  cases pu with
  | true => exact ⟨(prompt_grows st ch p o).1, prompt_false_unchanged st ch p o⟩
  | false => exact ⟨PMGrows_refl st, fun _ => rfl⟩

theorem can_read_file_grows (st : PMState) (fp : String) (pu : Bool) (ch : Choice) :
    PMGrows st (can_read_file st fp pu ch).2
    ∧ ((can_read_file st fp pu ch).1 = false → (can_read_file st fp pu ch).2 = st) := by
  cases hc : cacheLookup st.permission_cache
      (CacheKey.read (normalizePath st.cwd (parsePath fp))) with
  | some b =>
    rw [can_read_file_cache_hit st fp pu ch b hc]
    exact ⟨PMGrows_refl st, fun _ => rfl⟩
  | none =>
    cases hw : is_within_project st.cwd (normalizePath st.cwd (parsePath fp)) with
    | false =>
      rw [can_read_file_outside st fp pu ch hc hw]
      exact prompt_or_deny_grows st ch fp .file_read pu
    | true =>
      cases ha : is_path_allowed st.cwd (normalizePath st.cwd (parsePath fp))
          (st.config.file_always_allow.getD ["."]) with
      | false =>
        rw [can_read_file_not_allowed st fp pu ch hc hw ha]
        exact prompt_or_deny_grows st ch fp .file_read pu
      | true =>
        rw [can_read_file_allowed st fp pu ch hc hw ha]
        refine ⟨⟨rfl, ⟨[(CacheKey.read (normalizePath st.cwd (parsePath fp)), true)],
          rfl, ?_⟩, ⟨[], by simp⟩, ⟨[], by simp⟩, Or.inl rfl⟩,
          fun habs => Bool.noConfusion habs⟩
        intro kv hkv
        simp only [List.mem_singleton] at hkv
        subst hkv
        exact ⟨rfl, hc⟩

theorem can_write_file_grows (st : PMState) (fp : String) (pu : Bool) (ch : Choice) :
    PMGrows st (can_write_file st fp pu ch).2
    ∧ ((can_write_file st fp pu ch).1 = false → (can_write_file st fp pu ch).2 = st) := by
  cases hc : cacheLookup st.permission_cache
      (CacheKey.write (normalizePath st.cwd (parsePath fp))) with
  | some b =>
    rw [can_write_file_cache_hit st fp pu ch b hc]
    exact ⟨PMGrows_refl st, fun _ => rfl⟩
  | none =>
    cases hw : is_within_project st.cwd (normalizePath st.cwd (parsePath fp)) with
    | false =>
      rw [can_write_file_outside st fp pu ch hc hw]
      exact prompt_or_deny_grows st ch fp .file_write pu
    | true =>
      cases ha : is_path_allowed st.cwd (normalizePath st.cwd (parsePath fp))
          (st.config.file_always_allow.getD ["."]) with
      | false =>
        rw [can_write_file_not_allowed st fp pu ch hc hw ha]
        exact prompt_or_deny_grows st ch fp .file_write pu
      | true =>
        rw [can_write_file_allowed st fp pu ch hc hw ha]
        refine ⟨⟨rfl, ⟨[(CacheKey.write (normalizePath st.cwd (parsePath fp)), true)],
          rfl, ?_⟩, ⟨[], by simp⟩, ⟨[], by simp⟩, Or.inl rfl⟩,
          fun habs => Bool.noConfusion habs⟩
        intro kv hkv
        simp only [List.mem_singleton] at hkv
        subst hkv
        exact ⟨rfl, hc⟩

theorem can_execute_command_grows (st : PMState) (command : String)
    (cw : Option String) (pu : Bool) (ch : Choice) :
    PMGrows st (can_execute_command st command cw pu ch).2
    ∧ ((can_execute_command st command cw pu ch).1 = false →
       (can_execute_command st command cw pu ch).2 = st) := by
  cases hc : cacheLookup st.permission_cache (CacheKey.exec command cw) with
  | some b =>
    rw [can_execute_command_cache_hit st command cw pu ch b hc]
    exact ⟨PMGrows_refl st, fun _ => rfl⟩
  | none =>
    cases hw : is_within_project st.cwd (execCwd st cw) with
    | false =>
      rw [can_execute_command_outside st command cw pu ch hc hw]
      exact prompt_or_deny_grows st ch command .command_exec pu
    | true =>
      cases ha : is_path_allowed st.cwd (execCwd st cw)
          (st.config.cmd_allowed_paths.getD ["."]) with
      | false =>
        rw [can_execute_command_not_allowed st command cw pu ch hc hw ha]
        exact prompt_or_deny_grows st ch command .command_exec pu
      | true =>
        rw [can_execute_command_allowed st command cw pu ch hc hw ha]
        refine ⟨⟨rfl, ⟨[(CacheKey.exec command cw, true)],
          rfl, ?_⟩, ⟨[], by simp⟩, ⟨[], by simp⟩, Or.inl rfl⟩,
          fun habs => Bool.noConfusion habs⟩
        intro kv hkv
        simp only [List.mem_singleton] at hkv
        subst hkv
        exact ⟨rfl, hc⟩

/-- C10: the in-memory permission cache only ever receives fresh entries
mapped to `true` — each of the three checks appends at most one fresh
`true` entry, the prompt never touches the cache, and a denied check
leaves the whole state unchanged, so denials are never memoized and are
re-evaluated (possibly re-prompting) on every later call; consequently a
cache whose entries are all `true` stays that way. -/
theorem permission_cache_only_true :
    (∀ (st : PMState) (fp : String) (pu : Bool) (ch : Choice),
        cacheGrows st (can_read_file st fp pu ch).2
        ∧ ((can_read_file st fp pu ch).1 = false →
            (can_read_file st fp pu ch).2 = st))
    ∧ (∀ (st : PMState) (fp : String) (pu : Bool) (ch : Choice),
        cacheGrows st (can_write_file st fp pu ch).2
        ∧ ((can_write_file st fp pu ch).1 = false →
            (can_write_file st fp pu ch).2 = st))
    ∧ (∀ (st : PMState) (command : String) (cw : Option String) (pu : Bool)
          (ch : Choice),
        cacheGrows st (can_execute_command st command cw pu ch).2
        ∧ ((can_execute_command st command cw pu ch).1 = false →
            (can_execute_command st command cw pu ch).2 = st))
    ∧ (∀ (st : PMState) (ch : Choice) (p : String) (o : Operation),
        (prompt_for_permission st ch p o).2.permission_cache
          = st.permission_cache)
    ∧ (∀ st st' : PMState, cacheGrows st st' →
        (∀ kv ∈ st.permission_cache, kv.2 = true) →
        ∀ kv ∈ st'.permission_cache, kv.2 = true) := by
  refine ⟨?_, ?_, ?_, ?_, ?_⟩
  · intro st fp pu ch
    exact ⟨(can_read_file_grows st fp pu ch).1.2.1, (can_read_file_grows st fp pu ch).2⟩
  · intro st fp pu ch
    exact ⟨(can_write_file_grows st fp pu ch).1.2.1, (can_write_file_grows st fp pu ch).2⟩
  · intro st command cw pu ch
    exact ⟨(can_execute_command_grows st command cw pu ch).1.2.1,
      (can_execute_command_grows st command cw pu ch).2⟩
  · intro st ch p o
    exact (prompt_grows st ch p o).2
  · rintro st st' ⟨tail, heq, htail⟩ hall kv hkv
    rw [heq] at hkv
    rcases List.mem_append.mp hkv with hmem | hmem
    · exact hall kv hmem
    · exact (htail kv hmem).1

def stW : PMState :=
  { cwd := ["proj"],
    config := { file_always_allow := some [], cmd_allowed_paths := some [] },
    disk := none, permission_cache := [] }

theorem permission_cache_only_true_witness :
    (can_read_file stW "/outside.txt" false Choice.deny).1 = false
    ∧ (can_read_file stW "/outside.txt" false Choice.deny).2 = stW :=
  ⟨rfl, (permission_cache_only_true.1 stW "/outside.txt" false Choice.deny).2 rfl⟩

theorem can_read_file_true_of_allowed (st : PMState) (fp : String) (pu : Bool)
    (ch : Choice)
    (hc : cacheLookup st.permission_cache
      (CacheKey.read (normalizePath st.cwd (parsePath fp))) = none)
    (hw : is_within_project st.cwd (normalizePath st.cwd (parsePath fp)) = true)
    (ha : is_path_allowed st.cwd (normalizePath st.cwd (parsePath fp))
      (st.config.file_always_allow.getD ["."]) = true) :
    (can_read_file st fp pu ch).1 = true := by
  rw [can_read_file_allowed st fp pu ch hc hw ha]

theorem within_not_allowed_some (st : PMState) (p : List String)
    (hw : is_within_project st.cwd p = true)
    (ha : is_path_allowed st.cwd p (st.config.file_always_allow.getD ["."]) = false) :
    ∃ l, st.config.file_always_allow = some l := by
  cases hfa : st.config.file_always_allow with
  | some l => exact ⟨l, rfl⟩
  | none =>
    exfalso
    rw [hfa] at ha
    have hdot : parsePath "." = PyPath.rel [] := rfl
    simp [is_path_allowed, hdot, normalizePath] at ha
    unfold is_within_project at hw
    rw [hw] at ha
    cases ha

/-- C8 counterexample: an "always" grant for a target outside the project
root is appended to the on-disk allow-list, yet the very next check for
that exact target is denied (the within-project gate precedes the
allow-list lookup), so subsequent checks do not return allowed without
prompting. -/
theorem always_grant_outside_project_counterexample :
    (can_read_file stW "/etc/hosts" true Choice.always).1 = true
    ∧ (can_read_file stW "/etc/hosts" true Choice.always).2.config.file_always_allow
        = some ["/etc/hosts"]
    ∧ (can_read_file (can_read_file stW "/etc/hosts" true Choice.always).2
        "/etc/hosts" false Choice.once).1 = false :=
  ⟨rfl, rfl, rfl⟩

/-- C8 (amended): for a target inside the project root whose check
reaches the prompt, an "always" grant appends the normalized relative
path to the project's allow-list and saves the configuration at once, and
every subsequent check for that exact target returns allowed without
consulting the prompt; moreover no operation of the permission manager
shrinks the cache, either allow-list, or an up-to-date saved
configuration.  (For targets outside the project root the within-project
gate runs before the allow-list, so the grant is saved but later checks
still prompt or deny.) -/
theorem always_grant_within_project (st : PMState) (fp : String)
    (hmiss : cacheLookup st.permission_cache
      (CacheKey.read (normalizePath st.cwd (parsePath fp))) = none)
    (hwithin : is_within_project st.cwd (normalizePath st.cwd (parsePath fp)) = true)
    (hnotallowed : is_path_allowed st.cwd (normalizePath st.cwd (parsePath fp))
      (st.config.file_always_allow.getD ["."]) = false)
    (hrt : normalizePath st.cwd (parsePath
        (renderPath st.cwd (normalizePath st.cwd (parsePath fp))))
      = normalizePath st.cwd (parsePath fp)) :
    (can_read_file st fp true Choice.always).1 = true
    ∧ (∃ l, st.config.file_always_allow = some l
        ∧ (can_read_file st fp true Choice.always).2.config.file_always_allow
          = some (l ++ [renderPath st.cwd (normalizePath st.cwd (parsePath fp))]))
    ∧ (can_read_file st fp true Choice.always).2.disk
        = some (can_read_file st fp true Choice.always).2.config
    ∧ (∀ (pu : Bool) (ch : Choice),
        (can_read_file (can_read_file st fp true Choice.always).2 fp pu ch).1 = true)
    ∧ (∀ (st0 : PMState) (fp0 : String) (pu0 : Bool) (ch0 : Choice),
        PMGrows st0 (can_read_file st0 fp0 pu0 ch0).2)
    ∧ (∀ (st0 : PMState) (fp0 : String) (pu0 : Bool) (ch0 : Choice),
        PMGrows st0 (can_write_file st0 fp0 pu0 ch0).2)
    ∧ (∀ (st0 : PMState) (c0 : String) (cw0 : Option String) (pu0 : Bool)
          (ch0 : Choice),
        PMGrows st0 (can_execute_command st0 c0 cw0 pu0 ch0).2)
    ∧ (∀ (st0 : PMState) (ch0 : Choice) (p0 : String) (o0 : Operation),
        PMGrows st0 (prompt_for_permission st0 ch0 p0 o0).2) := by
  obtain ⟨l, hl⟩ := within_not_allowed_some st _ hwithin hnotallowed
  have hres : can_read_file st fp true Choice.always
      = prompt_for_permission st Choice.always fp .file_read := by
    rw [can_read_file_not_allowed st fp true Choice.always hmiss hwithin hnotallowed]
    rfl
  have hprompt : prompt_for_permission st Choice.always fp .file_read
      = (true, { st with
          config := configAfterAdd st.config
            (renderPath st.cwd (normalizePath st.cwd (parsePath fp))) .file_read,
          disk := some (configAfterAdd st.config
            (renderPath st.cwd (normalizePath st.cwd (parsePath fp))) .file_read) }) := rfl
  have hnotmem : renderPath st.cwd (normalizePath st.cwd (parsePath fp))
      ∉ st.config.file_always_allow.getD [] := by
    intro hmem
    have hallowed : is_path_allowed st.cwd (normalizePath st.cwd (parsePath fp))
        (st.config.file_always_allow.getD ["."]) = true := by
      rw [hl] at hmem ⊢
      simp only [Option.getD_some] at hmem ⊢
      rw [is_path_allowed, List.any_eq_true]
      refine ⟨renderPath st.cwd (normalizePath st.cwd (parsePath fp)), hmem, ?_⟩
      rw [hrt]
      exact beginsWith_refl (normalizePath st.cwd (parsePath fp))
    rw [hallowed] at hnotallowed
    cases hnotallowed
  have hconfig : configAfterAdd st.config
      (renderPath st.cwd (normalizePath st.cwd (parsePath fp))) .file_read
      = { st.config with
          file_always_allow :=
            some (l ++ [renderPath st.cwd (normalizePath st.cwd (parsePath fp))]) } := by
    rw [hl] at hnotmem
    simp only [Option.getD_some] at hnotmem
    simp [configAfterAdd, hl, hnotmem]
  refine ⟨?_, ?_, ?_, ?_, ?_, ?_, ?_, ?_⟩
  · rw [hres, hprompt]
  · refine ⟨l, hl, ?_⟩
    rw [hres, hprompt]
    simp [hconfig]
  · rw [hres, hprompt]
  · intro pu ch
    have hallow2 : is_path_allowed st.cwd (normalizePath st.cwd (parsePath fp))
        ((some (l ++ [renderPath st.cwd (normalizePath st.cwd (parsePath fp))])).getD ["."])
        = true := by
      simp only [Option.getD_some]
      rw [is_path_allowed, List.any_eq_true]
      refine ⟨renderPath st.cwd (normalizePath st.cwd (parsePath fp)),
        List.mem_append.mpr (Or.inr (List.mem_singleton.mpr rfl)), ?_⟩
      rw [hrt]
      exact beginsWith_refl (normalizePath st.cwd (parsePath fp))
    have hgoal : is_path_allowed st.cwd (normalizePath st.cwd (parsePath fp))
        ((configAfterAdd st.config
            (renderPath st.cwd (normalizePath st.cwd (parsePath fp)))
            .file_read).file_always_allow.getD ["."]) = true := by
      rw [hconfig]
      exact hallow2
    rw [hres, hprompt]
    apply can_read_file_true_of_allowed
    · exact hmiss
    · exact hwithin
    · exact hgoal
  · intro st0 fp0 pu0 ch0
    exact (can_read_file_grows st0 fp0 pu0 ch0).1
  · intro st0 fp0 pu0 ch0
    exact (can_write_file_grows st0 fp0 pu0 ch0).1
  · intro st0 c0 cw0 pu0 ch0
    exact (can_execute_command_grows st0 c0 cw0 pu0 ch0).1
  · intro st0 ch0 p0 o0
    exact (prompt_grows st0 ch0 p0 o0).1

def stC9 : PMState :=
  { cwd := ["proj"],
    config := { file_always_allow := some ["src"], cmd_allowed_paths := some [] },
    disk := none, permission_cache := [] }

theorem always_grant_within_project_witness :
    (can_read_file stC9 "notes.txt" true Choice.always).1 = true
    ∧ (can_read_file (can_read_file stC9 "notes.txt" true Choice.always).2
        "notes.txt" false Choice.deny).1 = true :=
  ⟨(always_grant_within_project stC9 "notes.txt" rfl rfl rfl rfl).1,
   (always_grant_within_project stC9 "notes.txt" rfl rfl rfl rfl).2.2.2.1
     false Choice.deny⟩

/-- C9 counterexample: after an "allow once" answer the manager state is
entirely unchanged — in particular nothing is cached in memory — so a
later check for the same target with prompting disabled is denied rather
than allowed without prompting. -/
theorem allow_once_not_cached_counterexample :
    (can_read_file stC9 "notes.txt" true Choice.once).1 = true
    ∧ (can_read_file stC9 "notes.txt" true Choice.once).2 = stC9
    ∧ (can_read_file stC9 "notes.txt" false Choice.once).1 = false :=
  ⟨rfl, rfl, rfl⟩

/-- C9 (amended): answering "allow once" (choice 1) allows the operation
and persists nothing to disk, but the decision is not cached in memory
either — the manager state is exactly unchanged — so a later check for
the same target re-prompts when prompting is enabled and is denied when
it is not. -/
theorem allow_once_allows_without_persisting (st : PMState) (fp : String)
    (hmiss : cacheLookup st.permission_cache
      (CacheKey.read (normalizePath st.cwd (parsePath fp))) = none)
    (hwithin : is_within_project st.cwd (normalizePath st.cwd (parsePath fp)) = true)
    (hnotallowed : is_path_allowed st.cwd (normalizePath st.cwd (parsePath fp))
      (st.config.file_always_allow.getD ["."]) = false) :
    can_read_file st fp true Choice.once = (true, st)
    ∧ (∀ ch, can_read_file st fp true ch
        = prompt_for_permission st ch fp .file_read)
    ∧ (∀ ch, (can_read_file st fp false ch).1 = false) := by
  refine ⟨?_, ?_, ?_⟩
  · rw [can_read_file_not_allowed st fp true Choice.once hmiss hwithin hnotallowed]
    rfl
  · intro ch
    rw [can_read_file_not_allowed st fp true ch hmiss hwithin hnotallowed]
    rfl
  · intro ch
    rw [can_read_file_not_allowed st fp false ch hmiss hwithin hnotallowed]
    rfl

theorem allow_once_allows_without_persisting_witness :
    can_read_file stC9 "notes.txt" true Choice.once = (true, stC9)
    ∧ (can_read_file stC9 "notes.txt" false Choice.deny).1 = false :=
  ⟨(allow_once_allows_without_persisting stC9 "notes.txt" rfl rfl rfl).1,
   (allow_once_allows_without_persisting stC9 "notes.txt" rfl rfl rfl).2.2 Choice.deny⟩

end Madison
